import Mathlib

/-!
Verification of the CC-NDP decomposition engine.

This file gives a shallow embedding, over exact rationals, of the data model
and the cut-generation operations of the chance-constrained network design
program: the subproblem right-hand-side update, the basic Benders subproblem
and its feasibility oracle, the feasibility and metric feasibility cuts, the
cutset inequalities, the combinatorial cut, the master model with its chance
constraint, the problem-data validation, and the Result bookkeeping.

External collaborators (the LP and MIP solver, the shortest-path and min-cut
routines of the graph library) are modelled as oracles: a hypothesis states
the contract the external routine guarantees, and the theorems are proved
under that contract.
-/

namespace CCNDP

/-- Vectors are functions from a finite index type to the rationals. All
floating-point quantities of the original program are modelled as exact
rationals. -/
abbrev Vec (n : ℕ) : Type := Fin n → ℚ

/-- Row sense of a linear constraint, as stored in the senses attribute of
the subproblem. -/
inductive Sense where
  | le
  | ge
  | eq
deriving DecidableEq

/-- Satisfaction of a constraint row with the given sense. -/
def Sense.sat : Sense → ℚ → ℚ → Prop
  | .le, lhs, rhs => lhs ≤ rhs
  | .ge, lhs, rhs => rhs ≤ lhs
  | .eq, lhs, rhs => lhs = rhs

instance : ∀ (sense : Sense) (lhs rhs : ℚ), Decidable (sense.sat lhs rhs)
  | .le, _, _ => inferInstanceAs (Decidable (_ ≤ _))
  | .ge, _, _ => inferInstanceAs (Decidable (_ ≤ _))
  | .eq, _, _ => inferInstanceAs (Decidable (_ = _))

/-- Coefficient of the slack variable in each row of the basic Benders
formulation: the sense2sign dictionary in the BB class maps the greater
sense to 1, the less sense to -1 and the equality sense to 0. -/
def Sense.sign : Sense → ℚ
  | .le => -1
  | .ge => 1
  | .eq => 0

/-- Matrix-vector product, with a matrix stored as its rows. -/
def mulVec {m n : ℕ} (A : Fin m → Vec n) (v : Vec n) : Vec m :=
  fun i => ∑ j, A i j * v j

/-- Numpy isclose with its default tolerances: absolute tolerance 1e-8 and
relative tolerance 1e-5. -/
def isClose (a b : ℚ) : Prop :=
  |a - b| ≤ 1 / 100000000 + 1 / 100000 * |b|

instance (a b : ℚ) : Decidable (isClose a b) := by
  unfold isClose; infer_instance

/-- Data extracted from the subproblem model: the constraint matrix split
into the first-stage part T and the second-stage part W, the right-hand side
h and the row senses. In the model the first narcs rows are the arc-capacity
rows and the remaining nbal rows the demand, supply and balance rows, which
is the order in which the model builds them. -/
structure SubData (narcs nbal nflow : ℕ) where
  T : Fin (narcs + nbal) → Vec narcs
  W : Fin (narcs + nbal) → Vec nflow
  h : Vec (narcs + nbal)
  senses : Fin (narcs + nbal) → Sense

/-- Embedding of SubProblem.update_rhs: the new right-hand side is h - T y,
with every negative entry replaced by zero. The function is total, so no
error is raised for negative entries of any magnitude. -/
def update_rhs {narcs nbal nflow : ℕ} (sub : SubData narcs nbal nflow)
    (y : Vec narcs) : Vec (narcs + nbal) :=
  fun i =>
    let r := sub.h i - mulVec sub.T y i
    if r < 0 then 0 else r

/-- Claim C4: for every decision vector y, update_rhs sets each component of
the right-hand side to max(h - T y, 0); every negative entry of h - T y is
replaced by zero, and since the function is total no error is ever raised,
regardless of the magnitude of the negative entries. -/
theorem update_rhs_clamps {narcs nbal nflow : ℕ} (sub : SubData narcs nbal nflow)
    (y : Vec narcs) (i : Fin (narcs + nbal)) :
    update_rhs sub y i = max (sub.h i - mulVec sub.T y i) 0 := by
  unfold update_rhs
  rcases le_or_lt 0 (sub.h i - mulVec sub.T y i) with h | h
  · rw [if_neg (not_lt.mpr h), max_eq_left h]
  · rw [if_pos h, max_eq_right h.le]

/-- Feasible points of the basic Benders (BB) subproblem at right-hand side
rhs: the flow variables x and the slack variables s are nonnegative, and
every row i holds with the slack entering through the signed identity column
of its row sense, exactly as the BB class builds its constraint matrix. -/
def bbFeasible {narcs nbal nflow : ℕ} (sub : SubData narcs nbal nflow)
    (rhs : Vec (narcs + nbal)) (x : Vec nflow) (s : Vec (narcs + nbal)) : Prop :=
  (∀ j, 0 ≤ x j) ∧ (∀ i, 0 ≤ s i) ∧
    ∀ i, (sub.senses i).sat (mulVec sub.W x i + (sub.senses i).sign * s i) (rhs i)

/-- Objective of the BB subproblem: the total slack usage. -/
def bbObjective {m : ℕ} (s : Vec m) : ℚ := ∑ i, s i

/-- The pair (x, s) is an optimal solution of the BB subproblem: it is
feasible and no feasible point has a smaller objective. This models a solve
that terminates with status optimal. -/
def bbOptimal {narcs nbal nflow : ℕ} (sub : SubData narcs nbal nflow)
    (rhs : Vec (narcs + nbal)) (x : Vec nflow) (s : Vec (narcs + nbal)) : Prop :=
  bbFeasible sub rhs x s ∧
    ∀ x' s', bbFeasible sub rhs x' s' → bbObjective s ≤ bbObjective s'

/-- The decision y supports a feasible flow at the given right-hand side:
some nonnegative flow satisfies every row of the subproblem constraint
system without any slack. The constraint system is the scenario flow system
by construction of the subproblem model. -/
def supportsFlow {narcs nbal nflow : ℕ} (sub : SubData narcs nbal nflow)
    (rhs : Vec (narcs + nbal)) : Prop :=
  ∃ x, (∀ j, 0 ≤ x j) ∧ ∀ i, (sub.senses i).sat (mulVec sub.W x i) (rhs i)

/-- Embedding of SubProblem.is_feasible: numpy isclose of the objective to
zero. -/
def is_feasible (obj : ℚ) : Prop := isClose obj 0

/-- Claim C1: after update_rhs y, at every optimal solution of the BB
subproblem the objective is a (finite, since rational) nonnegative measure
of infeasibility that is zero exactly when y supports a feasible flow for
the scenario, and is_feasible holds iff the objective is approximately zero
within the numpy tolerance. -/
theorem feasibility_oracle {narcs nbal nflow : ℕ} (sub : SubData narcs nbal nflow)
    (y : Vec narcs) (x : Vec nflow) (s : Vec (narcs + nbal))
    (hopt : bbOptimal sub (update_rhs sub y) x s) :
    0 ≤ bbObjective s ∧
      (bbObjective s = 0 ↔ supportsFlow sub (update_rhs sub y)) ∧
      (is_feasible (bbObjective s) ↔ isClose (bbObjective s) 0) := by
  obtain ⟨⟨hx, hs, hrows⟩, hmin⟩ := hopt
  have hnonneg : 0 ≤ bbObjective s := Finset.sum_nonneg fun i _ => hs i
  refine ⟨hnonneg, ⟨?_, ?_⟩, Iff.rfl⟩
  · intro h0
    have hzero : ∀ i ∈ Finset.univ, s i = 0 :=
      (Finset.sum_eq_zero_iff_of_nonneg fun i _ => hs i).mp h0
    refine ⟨x, hx, fun i => ?_⟩
    have := hrows i
    rwa [hzero i (Finset.mem_univ i), mul_zero, add_zero] at this
  · rintro ⟨x₀, hx₀, hrows₀⟩
    have hfeas : bbFeasible sub (update_rhs sub y) x₀ fun _ => 0 := by
      refine ⟨hx₀, fun i => le_refl 0, fun i => ?_⟩
      simpa [mul_zero, add_zero] using hrows₀ i
    have hle : bbObjective s ≤ bbObjective (fun _ => (0 : ℚ)) := hmin x₀ _ hfeas
    have : bbObjective (fun _ : Fin (narcs + nbal) => (0 : ℚ)) = 0 :=
      Finset.sum_const_zero
    exact le_antisymm (this ▸ hle) hnonneg

/-- Trivial subproblem with no rows and no flow variables, used to witness
the feasibility-oracle theorem. -/
def trivialSub : SubData 0 0 0 :=
  ⟨fun i => i.elim0, fun i => i.elim0, fun i => i.elim0, fun i => i.elim0⟩

/-- Witness for claim C1: the feasibility-oracle theorem applied to the
trivial subproblem at the all-zero optimal solution. -/
theorem feasibility_oracle_witness :
    0 ≤ bbObjective (fun _ : Fin (0 + 0) => (0 : ℚ)) ∧
      (bbObjective (fun _ : Fin (0 + 0) => (0 : ℚ)) = 0 ↔
        supportsFlow trivialSub (update_rhs trivialSub fun _ => 0)) ∧
      (is_feasible (bbObjective fun _ : Fin (0 + 0) => (0 : ℚ)) ↔
        isClose (bbObjective fun _ : Fin (0 + 0) => (0 : ℚ)) 0) :=
  feasibility_oracle trivialSub (fun _ => 0) (fun _ => 0) (fun _ => 0)
    ⟨⟨fun j => j.elim0, fun i => i.elim0, fun i => i.elim0⟩,
      fun x' s' _ => le_of_eq (by simp [bbObjective])⟩

/-- Arcs of the network, as in the Arc dataclass. -/
structure Arc where
  from_node : ℕ
  to_node : ℕ
  var_cost : ℚ
  capacity : ℚ
  fixed_cost : ℚ
deriving DecidableEq

/-- Commodities, as in the Commodity dataclass: origin, destination and one
demand per scenario. -/
structure Commodity where
  from_node : ℕ
  to_node : ℕ
  demands : List ℚ
deriving DecidableEq

/-- Problem data, as in the ProblemData dataclass, before validation. -/
structure ProblemData where
  num_nodes : ℕ
  arcs : List Arc
  commodities : List Commodity
  probabilities : List ℚ
deriving DecidableEq

abbrev ProblemData.num_arcs (d : ProblemData) : ℕ := d.arcs.length

abbrev ProblemData.num_commodities (d : ProblemData) : ℕ := d.commodities.length

abbrev ProblemData.num_scenarios (d : ProblemData) : ℕ := d.probabilities.length

/-- Validation errors raised at data-construction time. -/
inductive DataError where
  | duplicateOD
  | nonPositiveProbability
deriving DecidableEq

/-- Origin-destination pairs of the commodities. -/
def odPairs (d : ProblemData) : List (ℕ × ℕ) :=
  d.commodities.map fun c => (c.from_node, c.to_node)

/-- Embedding of the post-construction validation of ProblemData: it raises
on duplicate origin-destination pairs (detected by comparing the number of
pairs with the number of distinct pairs), then on a non-positive scenario
probability; otherwise construction succeeds with the data unchanged. -/
def ProblemData.validate (d : ProblemData) : Except DataError ProblemData :=
  if (odPairs d).length ≠ (odPairs d).dedup.length then
    .error .duplicateOD
  else if d.probabilities.any fun p => decide (p ≤ 0) then
    .error .nonPositiveProbability
  else
    .ok d

/-- Lemma: a list has as many elements as its deduplication exactly when it
has no duplicates. -/
theorem length_eq_length_dedup_iff {α : Type} [DecidableEq α] (l : List α) :
    l.length = l.dedup.length ↔ l.Nodup := by
  constructor
  · intro h
    have heq : l.dedup = l := l.dedup_sublist.eq_of_length h.symm
    rw [← heq]
    exact l.nodup_dedup
  · intro h
    rw [h.dedup]

/-- Claim C9: constructing a ProblemData fails if and only if two commodities
share the same origin-destination pair or some scenario probability is not
strictly positive; for all inputs with distinct pairs and strictly positive
probabilities, construction succeeds and returns the data unchanged. -/
theorem problem_data_validate_iff (d : ProblemData) :
    ((∃ e, d.validate = .error e) ↔
      ¬(odPairs d).Nodup ∨ ∃ p ∈ d.probabilities, p ≤ 0) ∧
    (d.validate = .ok d ↔
      (odPairs d).Nodup ∧ ∀ p ∈ d.probabilities, 0 < p) := by
  unfold ProblemData.validate
  split_ifs with h1 h2
  · have hnd : ¬(odPairs d).Nodup := by
      rw [← length_eq_length_dedup_iff]; exact h1
    constructor
    · exact ⟨fun _ => Or.inl hnd, fun _ => ⟨.duplicateOD, rfl⟩⟩
    · constructor
      · intro h; cases h
      · rintro ⟨hn, _⟩; exact absurd hn hnd
  · have hnd : (odPairs d).Nodup := by
      rw [← length_eq_length_dedup_iff]; push_neg at h1; exact h1
    have hex : ∃ p ∈ d.probabilities, p ≤ 0 := by
      obtain ⟨p, hp, hdec⟩ := List.any_eq_true.mp h2
      exact ⟨p, hp, of_decide_eq_true hdec⟩
    constructor
    · exact ⟨fun _ => Or.inr hex, fun _ => ⟨.nonPositiveProbability, rfl⟩⟩
    · constructor
      · intro h; cases h
      · rintro ⟨_, hpos⟩
        obtain ⟨p, hp, hle⟩ := hex
        exact absurd (hpos p hp) (not_lt.mpr hle)
  · have hnd : (odPairs d).Nodup := by
      rw [← length_eq_length_dedup_iff]; push_neg at h1; exact h1
    have hpos : ∀ p ∈ d.probabilities, 0 < p := by
      intro p hp
      by_contra hc
      exact h2 (List.any_eq_true.mpr ⟨p, hp, decide_eq_true (not_lt.mp hc)⟩)
    constructor
    · constructor
      · rintro ⟨e, he⟩; cases he
      · rintro (h | ⟨p, hp, hle⟩)
        · exact absurd hnd h
        · exact absurd (hpos p hp) (not_lt.mpr hle)
    · exact ⟨fun _ => ⟨hnd, hpos⟩, fun _ => rfl⟩

/-- Tail node of arc a in the network graph built from the arcs. -/
def arcFrom (d : ProblemData) (a : Fin d.num_arcs) : ℕ := (d.arcs.get a).from_node

/-- Head node of arc a in the network graph built from the arcs. -/
def arcTo (d : ProblemData) (a : Fin d.num_arcs) : ℕ := (d.arcs.get a).to_node

/-- Commodity number k of the problem data. -/
def commodity (d : ProblemData) (k : Fin d.num_commodities) : Commodity :=
  d.commodities.get k

/-- Demand of commodity k in the given scenario. -/
def demandOf (d : ProblemData) (k : Fin d.num_commodities) (scen : ℕ) : ℚ :=
  (commodity d k).demands.getD scen 0

/-- Boolean test that a list of arc indices forms a directed walk from u to
v in the network graph. -/
def isPathB (d : ProblemData) : ℕ → List (Fin d.num_arcs) → ℕ → Bool
  | u, [], v => decide (u = v)
  | u, a :: rest, v => decide (arcFrom d a = u) && isPathB d (arcTo d a) rest v

/-- The list of arc indices forms a directed walk from u to v. -/
def IsPath (d : ProblemData) (u : ℕ) (p : List (Fin d.num_arcs)) (v : ℕ) : Prop :=
  isPathB d u p v = true

instance (d : ProblemData) (u : ℕ) (p : List (Fin d.num_arcs)) (v : ℕ) :
    Decidable (IsPath d u p v) :=
  inferInstanceAs (Decidable (_ = _))

/-- Total weight of a walk under the given arc weights. -/
def pathWeight {n : ℕ} (w : Vec n) (p : List (Fin n)) : ℚ := (p.map w).sum

/-- The walk p is a shortest u-v walk for the given arc weights: it is a
walk from u to v, and no other such walk is lighter. This is the contract
of the external shortest-path routine of the graph library. -/
def IsShortestPath (d : ProblemData) (w : Vec d.num_arcs) (u v : ℕ)
    (p : List (Fin d.num_arcs)) : Prop :=
  IsPath d u p v ∧ ∀ q, IsPath d u q v → pathWeight w p ≤ pathWeight w q

/-- Dual-derived edge weights, the pi vector of the metric feasibility cut:
the negated duals of the capacity rows (the first narcs rows of the
subproblem), with negative entries clamped to zero. -/
def piWeights {narcs nbal : ℕ} (duals : Vec (narcs + nbal)) : Vec narcs :=
  fun a =>
    let v := -duals (Fin.castAdd nbal a)
    if v < 0 then 0 else v

/-- Cuts added to the master problem, as in the Cut dataclass. The cut
represents the constraint gamma * z[scen] >= gamma - beta . y. -/
structure Cut (narcs : ℕ) where
  beta : Vec narcs
  gamma : ℚ
  scen : ℕ

/-- Embedding of SubProblem.feasibility_cut. The vector beta is the product
of the duals with the first-stage matrix T in both cases. Without metric
cuts, gamma is the product of the duals with the right-hand side h.
Otherwise gamma is the sum over commodities of the scenario demand times
the pi weight of the path the external shortest-path routine returns for
that commodity, modelled by the function sp. -/
def feasibility_cut (d : ProblemData) {nbal nflow : ℕ}
    (sub : SubData d.num_arcs nbal nflow) (scen : ℕ) (withoutMetricCuts : Bool)
    (duals : Vec (d.num_arcs + nbal))
    (sp : Fin d.num_commodities → List (Fin d.num_arcs)) : Cut d.num_arcs :=
  let beta : Vec d.num_arcs := fun j => ∑ i, duals i * sub.T i j
  if withoutMetricCuts then
    { beta := beta, gamma := ∑ i, duals i * sub.h i, scen := scen }
  else
    { beta := beta
      gamma := ∑ k, demandOf d k scen * pathWeight (piWeights duals) (sp k)
      scen := scen }

/-- Claim C2: for a solved subproblem, feasibility_cut returns a cut whose
beta is the dual vector times T and whose scenario index is the subproblem
scenario; gamma is duals times h when metric strengthening is disabled, and
otherwise gamma is the sum over commodities of the scenario demand times
the shortest-path distance from origin to destination under the edge
weights max(0, -dual of the capacity row), with beta the same in either
case. The external routine is assumed to return shortest paths. -/
theorem feasibility_cut_spec (d : ProblemData) {nbal nflow : ℕ}
    (sub : SubData d.num_arcs nbal nflow) (scen : ℕ)
    (duals : Vec (d.num_arcs + nbal))
    (sp : Fin d.num_commodities → List (Fin d.num_arcs))
    (hsp : ∀ k, IsShortestPath d (piWeights duals)
      (commodity d k).from_node (commodity d k).to_node (sp k)) :
    ((feasibility_cut d sub scen true duals sp).beta
        = fun j => ∑ i, duals i * sub.T i j) ∧
    ((feasibility_cut d sub scen false duals sp).beta
        = fun j => ∑ i, duals i * sub.T i j) ∧
    (feasibility_cut d sub scen true duals sp).scen = scen ∧
    (feasibility_cut d sub scen false duals sp).scen = scen ∧
    (feasibility_cut d sub scen true duals sp).gamma
        = ∑ i, duals i * sub.h i ∧
    (feasibility_cut d sub scen false duals sp).gamma
        = ∑ k, demandOf d k scen * pathWeight (piWeights duals) (sp k) ∧
    (∀ k, IsPath d (commodity d k).from_node (sp k) (commodity d k).to_node) ∧
    (∀ k q, IsPath d (commodity d k).from_node q (commodity d k).to_node →
      pathWeight (piWeights duals) (sp k) ≤ pathWeight (piWeights duals) q) ∧
    (∀ a, piWeights duals a = max (-duals (Fin.castAdd nbal a)) 0) := by
  refine ⟨rfl, rfl, rfl, rfl, rfl, rfl, fun k => (hsp k).1,
    fun k => (hsp k).2, fun a => ?_⟩
  unfold piWeights
  rcases le_or_lt 0 (-duals (Fin.castAdd nbal a)) with h | h
  · rw [if_neg (not_lt.mpr h), max_eq_left h]
  · rw [if_pos h, max_eq_right h.le]

/-- Lemma: a walk has weight zero when every arc weight is zero. -/
theorem pathWeight_eq_zero {n : ℕ} {w : Vec n} (hw : ∀ a, w a = 0)
    (p : List (Fin n)) : pathWeight w p = 0 :=
  List.sum_eq_zero fun x hx => by
    obtain ⟨a, _, rfl⟩ := List.mem_map.mp hx
    exact hw a

/-- Example network: two nodes, one arc from node 1 to node 2 of capacity 5,
one commodity with demand 10 in the single scenario. -/
def exData : ProblemData where
  num_nodes := 2
  arcs := [⟨1, 2, 0, 5, 1⟩]
  commodities := [⟨1, 2, [10]⟩]
  probabilities := [1]

/-- Example subproblem data on the example network: the single capacity row,
with the first-stage coefficient -capacity and right-hand side zero. -/
def exSub : SubData exData.num_arcs 0 0 where
  T := fun _ => fun _ => -5
  W := fun _ => fun j => j.elim0
  h := fun _ => 0
  senses := fun _ => .le

/-- Example dual vector: all zeros. -/
def exDuals : Vec (exData.num_arcs + 0) := fun _ => 0

/-- Example shortest-path routine: the single arc for every commodity. -/
def exSp : Fin exData.num_commodities → List (Fin exData.num_arcs) :=
  fun _ => [⟨0, by decide⟩]

/-- Lemma: on the example network with zero duals, the chosen path is a
shortest path for every commodity. -/
theorem exSp_shortest : ∀ k, IsShortestPath exData (piWeights exDuals)
    (commodity exData k).from_node (commodity exData k).to_node (exSp k) := by
  intro k
  have hw : ∀ a, piWeights exDuals a = 0 := by
    intro a
    simp [piWeights, exDuals]
  constructor
  · fin_cases k
    decide
  · intro q hq
    rw [pathWeight_eq_zero hw, pathWeight_eq_zero hw]

/-- Witness for claim C2: the feasibility-cut theorem applied to the example
network with zero duals and the one-arc shortest path. -/
theorem feasibility_cut_spec_witness :
    (∀ k, IsShortestPath exData (piWeights exDuals)
      (commodity exData k).from_node (commodity exData k).to_node (exSp k)) ∧
    ((feasibility_cut exData exSub 0 true exDuals exSp).beta
        = fun j => ∑ i, exDuals i * exSub.T i j) ∧
    ((feasibility_cut exData exSub 0 false exDuals exSp).beta
        = fun j => ∑ i, exDuals i * exSub.T i j) ∧
    (feasibility_cut exData exSub 0 true exDuals exSp).scen = 0 ∧
    (feasibility_cut exData exSub 0 false exDuals exSp).scen = 0 ∧
    (feasibility_cut exData exSub 0 true exDuals exSp).gamma
        = ∑ i, exDuals i * exSub.h i ∧
    (feasibility_cut exData exSub 0 false exDuals exSp).gamma
        = ∑ k, demandOf exData k 0 * pathWeight (piWeights exDuals) (exSp k) ∧
    (∀ k, IsPath exData (commodity exData k).from_node (exSp k)
      (commodity exData k).to_node) ∧
    (∀ k q, IsPath exData (commodity exData k).from_node q
        (commodity exData k).to_node →
      pathWeight (piWeights exDuals) (exSp k)
        ≤ pathWeight (piWeights exDuals) q) ∧
    (∀ a, piWeights exDuals a = max (-exDuals (Fin.castAdd 0 a)) 0) :=
  ⟨exSp_shortest, feasibility_cut_spec exData exSub 0 exDuals exSp exSp_shortest⟩

/-- Residual capacity per arc at the decision y and the current flow values:
arc capacity times y minus the total flow through the arc, summed over the
commodities. -/
def residual (d : ProblemData) (y : Vec d.num_arcs)
    (flows : Fin d.num_arcs → Fin d.num_commodities → ℚ) : Vec d.num_arcs :=
  fun a => (d.arcs.get a).capacity * y a - ∑ k, flows a k

/-- Current flow of commodity k out of its origin node: the flow on the arcs
whose tail is the commodity origin. -/
def originOutflow (d : ProblemData)
    (flows : Fin d.num_arcs → Fin d.num_commodities → ℚ)
    (k : Fin d.num_commodities) : ℚ :=
  ∑ a, if arcFrom d a = (commodity d k).from_node then flows a k else 0

/-- The set of arcs S separates u from v: every directed walk from u to v
uses an arc of S. -/
def Separates (d : ProblemData) (u v : ℕ) (S : Finset (Fin d.num_arcs)) : Prop :=
  ∀ p, IsPath d u p v → ∃ a ∈ p, a ∈ S

/-- Total arc weight of a cut set. -/
def cutWeight (d : ProblemData) (w : Vec d.num_arcs)
    (S : Finset (Fin d.num_arcs)) : ℚ :=
  ∑ a ∈ S, w a

/-- The set S is a minimum u-v cut for the given arc weights: it separates
u from v and no separating set is lighter. This is the contract of the
external min-cut routine of the graph library. -/
def IsMinCut (d : ProblemData) (w : Vec d.num_arcs) (u v : ℕ)
    (S : Finset (Fin d.num_arcs)) : Prop :=
  Separates d u v S ∧ ∀ S', Separates d u v S' → cutWeight d w S ≤ cutWeight d w S'

/-- Beta vector of a cutset inequality: the arc capacity on the arcs of the
cut set, zero elsewhere. -/
def cutsetBeta (d : ProblemData) (S : Finset (Fin d.num_arcs)) : Vec d.num_arcs :=
  fun a => if a ∈ S then (d.arcs.get a).capacity else 0

/-- The flow variable of the pair (arc, commodity) is removed at model
creation: the model drops the flows into each commodity origin and out of
each commodity destination, since those must be zero anyway. -/
def removedPairB (d : ProblemData) (a : Fin d.num_arcs)
    (k : Fin d.num_commodities) : Bool :=
  decide (arcTo d a = (commodity d k).from_node) ||
    decide (arcFrom d a = (commodity d k).to_node)

/-- The (arc, commodity) pairs whose flow variables remain in the subproblem
model, in the flattened row-major order of the original variable grid. -/
def keptPairs (d : ProblemData) :
    List (Fin d.num_arcs × Fin d.num_commodities) :=
  ((List.finRange d.num_arcs).flatMap fun a =>
    (List.finRange d.num_commodities).map fun k => (a, k)).filter
    fun p => !removedPairB d p.1 p.2

/-- The flow table the cutset generator works with: the values of the first
num_arcs * num_commodities subproblem variables, reshaped row-major onto
the (arc, commodity) grid. The subproblem variable values vals are the kept
flow variables followed by the slacks, so whenever any flow variable was
removed the slice reaches into the slack values and the grid is misaligned.
The numpy reshape requires exactly that many values; entries beyond the end
of the list are modelled as zero. -/
def extractFlows (d : ProblemData) (vals : List ℚ) :
    Fin d.num_arcs → Fin d.num_commodities → ℚ :=
  fun a k =>
    (vals.take (d.num_arcs * d.num_commodities)).getD
      (a.val * d.num_commodities + k.val) 0

/-- The current flow of the model solution on the (arc, commodity) grid:
kept flow variables carry their value (flowVals lists them in the order of
keptPairs), removed ones are zero by construction. -/
def trueFlow (d : ProblemData) (flowVals : List ℚ) :
    Fin d.num_arcs → Fin d.num_commodities → ℚ :=
  fun a k =>
    if removedPairB d a k then 0
    else flowVals.getD ((keptPairs d).indexOf (a, k)) 0

/-- Embedding of SubProblem.cutset_inequalities: the flow table is read off
the model by reshaping the values of the first num_arcs * num_commodities
variables (extractFlows); for each commodity in order, the commodity is
skipped when the flow of that table out of its origin reaches its scenario
demand; otherwise one cut is produced, whose beta carries the arc
capacities on the cut the external min-cut routine returns for that
commodity (modelled by mc) and whose gamma is the demand. -/
def cutset_inequalities (d : ProblemData) (scen : ℕ) (vals : List ℚ)
    (mc : Fin d.num_commodities → Finset (Fin d.num_arcs)) :
    List (Cut d.num_arcs) :=
  (List.finRange d.num_commodities).filterMap fun k =>
    if demandOf d k scen ≤ originOutflow d (extractFlows d vals) k then none
    else some ⟨cutsetBeta d (mc k), demandOf d k scen, scen⟩

/-- Failing-input network for the cutset generator: two nodes, an arc from
node 1 to node 2 of capacity 5 and an arc from node 2 back to node 1 of
capacity 7, one commodity from node 1 to node 2 with demand 10 in the
single scenario. The back arc enters the commodity origin, so its flow
variable is removed at model creation and the model keeps a single flow
variable. -/
def bugData : ProblemData where
  num_nodes := 2
  arcs := [⟨1, 2, 0, 5, 1⟩, ⟨2, 1, 0, 7, 1⟩]
  commodities := [⟨1, 2, [10]⟩]
  probabilities := [1]

/-- Forward arc of the failing-input network. -/
def bugArc0 : Fin bugData.num_arcs := ⟨0, by decide⟩

/-- Back arc of the failing-input network. -/
def bugArc1 : Fin bugData.num_arcs := ⟨1, by decide⟩

/-- The single commodity of the failing-input network. -/
def bugComm0 : Fin bugData.num_commodities := ⟨0, Nat.one_pos⟩

/-- Failing-input decision: both arcs built. -/
def bugY : Vec bugData.num_arcs := fun _ => 1

/-- Failing-input subproblem variable values: flow 3 on the single kept
flow variable, followed by the first slack value 4. -/
def bugVals : List ℚ := [3, 4]

/-- Lemma: every arc of the failing-input network is one of its two arcs. -/
theorem bugArc_cases (a : Fin bugData.num_arcs) : a = bugArc0 ∨ a = bugArc1 := by
  have h : a.val < 2 := a.isLt
  rcases (by omega : a.val = 0 ∨ a.val = 1) with h0 | h1
  · exact Or.inl (Fin.ext h0)
  · exact Or.inr (Fin.ext h1)

/-- Claim C5 (code bug): the cutset generator reads its flow table by
reshaping the values of the first num_arcs * num_commodities model
variables, but the model dropped the flow variables into commodity origins
and out of commodity destinations at creation, so the table mixes slack
values in and is misaligned whenever any variable was removed; the TODO in
the source flags exactly this. On the failing input the back-arc flow
variable was removed: the reshaped table assigns the first slack value 4 to
the back arc, whose current flow is zero, so the residual weight the
min-cut routine receives there is 3 rather than capacity times y minus the
current flow, which is 7; the generator still emits one capacity-weighted
cut for the deficient commodity, built from a minimum cut of the misaligned
residual graph. -/
theorem cutset_flow_table_misaligned :
    keptPairs bugData = [(bugArc0, bugComm0)] ∧
    extractFlows bugData bugVals bugArc1 bugComm0 = 4 ∧
    trueFlow bugData [3] bugArc1 bugComm0 = 0 ∧
    residual bugData bugY (extractFlows bugData bugVals) bugArc1 = 3 ∧
    (bugData.arcs.get bugArc1).capacity * bugY bugArc1
        - (∑ k : Fin 1, trueFlow bugData [3] bugArc1 k) = 7 ∧
    IsMinCut bugData (residual bugData bugY (extractFlows bugData bugVals))
      1 2 {bugArc0} ∧
    cutset_inequalities bugData 0 bugVals (fun _ => {bugArc0})
      = [⟨cutsetBeta bugData {bugArc0}, 10, 0⟩] := by
  have hw0 : residual bugData bugY (extractFlows bugData bugVals) bugArc0 = 2 := by
    show (bugData.arcs.get bugArc0).capacity * bugY bugArc0
        - ∑ k : Fin 1, extractFlows bugData bugVals bugArc0 k = 2
    rw [Fin.sum_univ_one]
    show (5 : ℚ) * 1 - 3 = 2
    norm_num
  have hw1 : residual bugData bugY (extractFlows bugData bugVals) bugArc1 = 3 := by
    show (bugData.arcs.get bugArc1).capacity * bugY bugArc1
        - ∑ k : Fin 1, extractFlows bugData bugVals bugArc1 k = 3
    rw [Fin.sum_univ_one]
    show (7 : ℚ) * 1 - 4 = 3
    norm_num
  refine ⟨rfl, rfl, rfl, hw1, ?_, ⟨?_, ?_⟩, ?_⟩
  · rw [Fin.sum_univ_one]
    show (7 : ℚ) * 1 - 0 = 7
    norm_num
  · intro p hp
    cases p with
    | nil => exact absurd hp (by decide)
    | cons a rest =>
      rcases bugArc_cases a with ha | ha
      · exact ⟨a, List.mem_cons_self a rest,
          by rw [ha]; exact Finset.mem_singleton_self bugArc0⟩
      · rw [ha] at hp
        have harc : arcFrom bugData bugArc1 = 2 := rfl
        simp [IsPath, isPathB, harc] at hp
  · intro S hS
    have h0 : bugArc0 ∈ S := by
      by_contra h
      obtain ⟨a, ha, haS⟩ := hS [bugArc0] (by decide)
      rw [List.mem_singleton.mp ha] at haS
      exact h haS
    simp only [cutWeight]
    rw [Finset.sum_singleton]
    refine Finset.single_le_sum (fun a _ => ?_) h0
    rcases bugArc_cases a with ha | ha
    · rw [ha, hw0]; norm_num
    · rw [ha, hw1]; norm_num
  · have hout : originOutflow bugData (extractFlows bugData bugVals) bugComm0 = 3 := by
      show (∑ a : Fin 2, if arcFrom bugData a = (commodity bugData bugComm0).from_node
          then extractFlows bugData bugVals a bugComm0 else 0) = 3
      rw [Fin.sum_univ_two]
      show (3 : ℚ) + 0 = 3
      norm_num
    have hcond : ¬(demandOf bugData bugComm0 0
        ≤ originOutflow bugData (extractFlows bugData bugVals) bugComm0) := by
      rw [hout, show demandOf bugData bugComm0 0 = 10 from rfl]
      norm_num
    rw [cutset_inequalities,
      show List.finRange bugData.num_commodities = [bugComm0] from rfl]
    simp only [List.filterMap_cons, List.filterMap_nil]
    rw [if_neg hcond]
    rfl

/-- The single arc of the example network. -/
def exArc0 : Fin exData.num_arcs := ⟨0, by decide⟩

/-- The single commodity of the example network. -/
def exComm0 : Fin exData.num_commodities := ⟨0, Nat.one_pos⟩

/-- Example decision: the single arc is built. -/
def exY : Vec exData.num_arcs := fun _ => 1

/-- Example subproblem variable values: no flow on the single kept flow
variable. On the example network no flow variable is removed, so the
reshaped table is aligned. -/
def exFlows : List ℚ := [0]

/-- Example min-cut routine: the set with the single arc, for every
commodity. -/
def exMc : Fin exData.num_commodities → Finset (Fin exData.num_arcs) :=
  fun _ => {exArc0}

/-- Indicator vector of the near-zero entries of the incumbent y, the
isclose comparison of y against zero in the callback. -/
def combIndicator {n : ℕ} (y : Vec n) : Vec n :=
  fun i => if isClose (y i) 0 then 1 else 0

/-- Left-hand side of the combinatorial cut, evaluated at a candidate
decision: the indicator of the near-zero entries of the incumbent y dotted
with the candidate. -/
def combLhs {n : ℕ} (y ynew : Vec n) : ℚ := ∑ i, combIndicator y i * ynew i

/-- The combinatorial lazy constraint added in the callback for an
infeasible, non-waived scenario: the indicator of the near-zero entries of
the incumbent dotted with the decision must reach 1 - z[scen]. -/
def combConstraint {n nscen : ℕ} (y : Vec n) (scen : Fin nscen)
    (ynew : Vec n) (z : Vec nscen) : Prop :=
  1 - z scen ≤ combLhs y ynew

/-- Lemma: the combinatorial left-hand side is nonnegative on nonnegative
decisions. -/
theorem combLhs_nonneg {n : ℕ} (y ynew : Vec n) (h : ∀ i, 0 ≤ ynew i) :
    0 ≤ combLhs y ynew :=
  Finset.sum_nonneg fun i _ => by
    unfold combIndicator
    split
    · rw [one_mul]; exact h i
    · rw [zero_mul]

/-- Claim C6: for a binary incumbent y and an infeasible scenario, the
combinatorial lazy constraint has the cut shape with beta the indicator of
the near-zero entries of y and gamma equal to 1 attached to the scenario
waiver; it is violated by the incumbent itself whenever the scenario waiver
is zero, and it is satisfied by any nonnegative decision that builds some
currently-unbuilt arc, and by any nonnegative decision that waives the
scenario. -/
theorem combinatorial_cut_spec {n nscen : ℕ} (y : Vec n) (scen : Fin nscen)
    (z : Vec nscen) (hbin : ∀ i, y i = 0 ∨ y i = 1) (hz : z scen = 0) :
    ¬combConstraint y scen y z ∧
    (∀ ynew znew, combConstraint y scen ynew znew ↔
      1 ≤ 1 * znew scen + combLhs y ynew) ∧
    (∀ ynew znew, (∀ i, 0 ≤ ynew i) → 0 ≤ znew scen →
      (∃ i, isClose (y i) 0 ∧ ynew i = 1) →
      combConstraint y scen ynew znew) ∧
    (∀ ynew znew, (∀ i, 0 ≤ ynew i) → znew scen = 1 →
      combConstraint y scen ynew znew) := by
  have hone : ¬isClose (1 : ℚ) 0 := by norm_num [isClose]
  have hself : combLhs y y = 0 := by
    apply Finset.sum_eq_zero
    intro i _
    rcases hbin i with h | h
    · rw [h, mul_zero]
    · rw [combIndicator, h, if_neg hone, zero_mul]
  refine ⟨?_, fun ynew znew => ?_, fun ynew znew hpos hzpos ⟨i, hi, hbuild⟩ => ?_,
    fun ynew znew hpos hz1 => ?_⟩
  · rw [combConstraint, hself, hz]
    norm_num
  · rw [combConstraint, one_mul]
    constructor
    · intro h; linarith
    · intro h; linarith
  · have hterm : (1 : ℚ) ≤ combIndicator y i * ynew i := by
      rw [combIndicator, if_pos hi, one_mul, hbuild]
    have hnn : ∀ j, (0 : ℚ) ≤ combIndicator y j * ynew j := fun j => by
      unfold combIndicator
      split
      · rw [one_mul]; exact hpos j
      · rw [zero_mul]
    have hsum : combIndicator y i * ynew i ≤ ∑ j, combIndicator y j * ynew j :=
      Finset.single_le_sum (fun j _ => hnn j) (Finset.mem_univ i)
    rw [combConstraint, combLhs]
    linarith
  · rw [combConstraint, hz1]
    have := combLhs_nonneg y ynew hpos
    linarith

/-- Witness for claim C6: the combinatorial-cut theorem at the incumbent
(0, 1) with a single scenario whose waiver is zero. -/
theorem combinatorial_cut_spec_witness :
    (∀ i, (![0, 1] : Vec 2) i = 0 ∨ (![0, 1] : Vec 2) i = 1) ∧
    (![(0 : ℚ)] : Vec 1) 0 = 0 ∧
    (¬combConstraint (![0, 1] : Vec 2) (0 : Fin 1) ![0, 1] ![(0 : ℚ)] ∧
      (∀ ynew znew, combConstraint (![0, 1] : Vec 2) (0 : Fin 1) ynew znew ↔
        1 ≤ 1 * znew 0 + combLhs ![0, 1] ynew) ∧
      (∀ ynew znew, (∀ i, 0 ≤ ynew i) → 0 ≤ znew 0 →
        (∃ i, isClose ((![0, 1] : Vec 2) i) 0 ∧ ynew i = 1) →
        combConstraint (![0, 1] : Vec 2) (0 : Fin 1) ynew znew) ∧
      ∀ ynew znew, (∀ i, 0 ≤ ynew i) → znew 0 = 1 →
        combConstraint (![0, 1] : Vec 2) (0 : Fin 1) ynew znew) :=
  ⟨fun i => by fin_cases i <;> simp, rfl,
    combinatorial_cut_spec ![0, 1] 0 ![0] (fun i => by fin_cases i <;> simp) rfl⟩

/-- Solver termination status, as far as the engine inspects it. -/
inductive SolverStatus where
  | optimal
  | timeLimit
  | other
deriving DecidableEq

/-- Result dataclass fields. The decisions and their costs are keyed by
variable name; the three histories hold one entry per incumbent. -/
structure Result where
  decisions : List (String × ℚ)
  decision_costs : List (String × ℚ)
  bounds : List ℚ
  objectives : List ℚ
  run_times : List ℚ
  is_optimal : Bool

/-- Round half to even, the rounding of the Python built-in round. -/
def roundHalfEven (q : ℚ) : ℤ :=
  if q - ⌊q⌋ < 1 / 2 then ⌊q⌋
  else if 1 / 2 < q - ⌊q⌋ then ⌊q⌋ + 1
  else if Even ⌊q⌋ then ⌊q⌋ else ⌊q⌋ + 1

/-- Rounding to two decimal places. -/
def round2 (q : ℚ) : ℚ := (roundHalfEven (100 * q) : ℚ) / 100

/-- Construction of a Result, including its post-construction hook: the
bounds, objectives and run_times lists are rounded to two decimal places;
the decisions and decision costs are left untouched. -/
def Result.make (decisions decision_costs : List (String × ℚ))
    (bounds objectives run_times : List ℚ) (is_optimal : Bool) : Result where
  decisions := decisions
  decision_costs := decision_costs
  bounds := bounds.map round2
  objectives := objectives.map round2
  run_times := run_times.map round2
  is_optimal := is_optimal

/-- Reported lower bound: the last entry of the bounds list, when any. -/
def Result.lower_bound (r : Result) : Option ℚ := r.bounds.getLast?

/-- Reported objective: the last entry of the objectives list, when any. -/
def Result.objective (r : Result) : Option ℚ := r.objectives.getLast?

/-- Reported total run time: the sum of the per-iteration run times. -/
def Result.run_time (r : Result) : ℚ := r.run_times.sum

/-- Lemma: rounding half to even moves a rational by at most one half. -/
theorem roundHalfEven_close (q : ℚ) : |(roundHalfEven q : ℚ) - q| ≤ 1 / 2 := by
  have hfl : (⌊q⌋ : ℚ) ≤ q := Int.floor_le q
  have hfu : q < ⌊q⌋ + 1 := Int.lt_floor_add_one q
  unfold roundHalfEven
  split_ifs with h1 h2 h3 <;>
    · push_cast
      rw [abs_le]
      constructor <;> linarith

/-- Lemma: round2 yields a multiple of one hundredth within half a
hundredth of its argument. -/
theorem round2_close (q : ℚ) :
    |round2 q - q| ≤ 1 / 200 ∧ ∃ k : ℤ, round2 q = (k : ℚ) / 100 := by
  constructor
  · have h := roundHalfEven_close (100 * q)
    rw [round2]
    have : (roundHalfEven (100 * q) : ℚ) / 100 - q
        = ((roundHalfEven (100 * q) : ℚ) - 100 * q) / 100 := by ring
    rw [this, abs_div]
    rw [abs_of_pos (by norm_num : (0 : ℚ) < 100)]
    linarith [abs_nonneg ((roundHalfEven (100 * q) : ℚ) - 100 * q)]
  · exact ⟨roundHalfEven (100 * q), rfl⟩

/-- Claim C10: every Result rounds its bounds, objectives and run_times
lists to two decimal places at construction, so the reported lower bound,
objective and run time are computed from the rounded values; the decisions
and decision costs are left untouched. -/
theorem result_post_init_rounds (decisions decision_costs : List (String × ℚ))
    (bounds objectives run_times : List ℚ) (is_optimal : Bool) :
    (Result.make decisions decision_costs bounds objectives run_times
        is_optimal).bounds = bounds.map round2 ∧
    (Result.make decisions decision_costs bounds objectives run_times
        is_optimal).objectives = objectives.map round2 ∧
    (Result.make decisions decision_costs bounds objectives run_times
        is_optimal).run_times = run_times.map round2 ∧
    (Result.make decisions decision_costs bounds objectives run_times
        is_optimal).decisions = decisions ∧
    (Result.make decisions decision_costs bounds objectives run_times
        is_optimal).decision_costs = decision_costs ∧
    (Result.make decisions decision_costs bounds objectives run_times
        is_optimal).lower_bound = bounds.getLast?.map round2 ∧
    (Result.make decisions decision_costs bounds objectives run_times
        is_optimal).objective = objectives.getLast?.map round2 ∧
    (Result.make decisions decision_costs bounds objectives run_times
        is_optimal).run_time = (run_times.map round2).sum ∧
    ∀ q : ℚ, |round2 q - q| ≤ 1 / 200 ∧ ∃ k : ℤ, round2 q = (k : ℚ) / 100 := by
  refine ⟨rfl, rfl, rfl, rfl, rfl, ?_, ?_, rfl, round2_close⟩
  · rw [Result.lower_bound, Result.make, List.getLast?_map]
  · rw [Result.objective, Result.make, List.getLast?_map]

/-- Consecutive differences with zero prepended, as numpy diff with a
prepended zero: entry i is the i-th value minus its predecessor. -/
def diffPrepend0 (ts : List ℚ) : List ℚ :=
  List.zipWith (fun a b => a - b) ts (0 :: ts)

/-- The Result built at the end of solve_decomposition: the recorded
decisions, costs and histories, with the run times differenced. The final
model status is among the inputs but is not consulted, exactly as in the
code, so the is_optimal field keeps the dataclass default true. -/
def solveDecompositionResult (decisions decision_costs : List (String × ℚ))
    (lower_bounds incumbent_objs run_times : List ℚ)
    (finalStatus : SolverStatus) : Result :=
  Result.make decisions decision_costs lower_bounds incumbent_objs
    (diffPrepend0 run_times) true

/-- The Result built by DeterministicEquivalent.solve: none when the solver
found no solution, and otherwise the single-entry histories with is_optimal
recording whether the final status is optimal. -/
def deqSolveResult (solCount : ℕ) (decisions decision_costs : List (String × ℚ))
    (objBound objVal runTime : ℚ) (status : SolverStatus) : Option Result :=
  if solCount = 0 then none
  else some (Result.make decisions decision_costs [objBound] [objVal] [runTime]
    (decide (status = SolverStatus.optimal)))

/-- Counterexample to claim C7: a decomposition solve that terminates at the
time limit, hence without proving optimality, still returns a Result whose
is_optimal flag is true, because solve_decomposition never passes the
solver status to the Result it builds. -/
theorem solve_decomposition_ignores_status :
    (solveDecompositionResult [] [] [] [] [] SolverStatus.timeLimit).is_optimal
      = true := rfl

/-- Claim C7 as amended: solve_decomposition always returns a Result with
is_optimal equal to true (the dataclass default), whatever the final solver
status; only DeterministicEquivalent.solve sets is_optimal, to whether the
final status is optimal, whenever it returns a Result at all. -/
theorem result_optimal_flag (decisions decision_costs : List (String × ℚ))
    (lower_bounds incumbent_objs run_times : List ℚ)
    (finalStatus : SolverStatus) (solCount : ℕ)
    (objBound objVal runTime : ℚ) (status : SolverStatus) (r : Result)
    (hdeq : deqSolveResult solCount decisions decision_costs objBound objVal
      runTime status = some r) :
    (solveDecompositionResult decisions decision_costs lower_bounds
        incumbent_objs run_times finalStatus).is_optimal = true ∧
    (r.is_optimal = true ↔ status = SolverStatus.optimal) := by
  refine ⟨rfl, ?_⟩
  rw [deqSolveResult] at hdeq
  split_ifs at hdeq
  obtain rfl : _ = r := Option.some_inj.mp hdeq
  simp [Result.make]

/-- Witness for the amended claim C7: a deterministic-equivalent solve with
one solution that hits the time limit yields is_optimal false, while the
decomposition result says true. -/
theorem result_optimal_flag_witness :
    deqSolveResult 1 [] [] 0 0 0 SolverStatus.timeLimit
        = some (Result.make [] [] [0] [0] [0] false) ∧
    ((solveDecompositionResult [] [] [] [] [] SolverStatus.timeLimit).is_optimal
        = true ∧
      ((Result.make [] [] [0] [0] [0] false).is_optimal = true ↔
        SolverStatus.timeLimit = SolverStatus.optimal)) :=
  ⟨rfl, result_optimal_flag [] [] [] [] [] SolverStatus.timeLimit 1 0 0 0
    SolverStatus.timeLimit (Result.make [] [] [0] [0] [0] false) rfl⟩

/-- Linear constraint of the master model over the construction decision
variables y and the scenario-waiver variables z. -/
structure MasterConstr (narcs nscen : ℕ) where
  ycoef : Vec narcs
  zcoef : Vec nscen
  sense : Sense
  rhs : ℚ

/-- Satisfaction of a master constraint by an assignment of the decision
and waiver variables. -/
def MasterConstr.sat {narcs nscen : ℕ} (c : MasterConstr narcs nscen)
    (y : Vec narcs) (z : Vec nscen) : Prop :=
  c.sense.sat ((∑ i, c.ycoef i * y i) + ∑ s, c.zcoef s * z s) c.rhs

/-- The chance constraint of the master model: the sum of the scenario
waivers is at most alpha times the number of scenarios. -/
def scenariosConstr (narcs nscen : ℕ) (alpha : ℚ) : MasterConstr narcs nscen where
  ycoef := fun _ => 0
  zcoef := fun _ => 1
  sense := .le
  rhs := alpha * nscen

/-- Arc indices leaving the given node. -/
def arcIndicesFrom (d : ProblemData) (node : ℕ) : List (Fin d.num_arcs) :=
  (List.finRange d.num_arcs).filter fun a => decide (arcFrom d a = node)

/-- Arc indices entering the given node. -/
def arcIndicesTo (d : ProblemData) (node : ℕ) : List (Fin d.num_arcs) :=
  (List.finRange d.num_arcs).filter fun a => decide (arcTo d a = node)

/-- The set of commodity origins. -/
def origins (d : ProblemData) : List ℕ :=
  (d.commodities.map fun c => c.from_node).dedup

/-- The set of commodity destinations. -/
def destinations (d : ProblemData) : List ℕ :=
  (d.commodities.map fun c => c.to_node).dedup

/-- One valid-inequality row: the capacity on the given arcs built by y must
cover the demand unless the scenario is waived. The model row
capacity . y >= demand * (1 - z[scen]) is stored with the demand term of z
moved to the left-hand side. -/
def visCapacityConstr (d : ProblemData) (scen : Fin d.num_scenarios)
    (idcs : List (Fin d.num_arcs)) (demand : ℚ) :
    MasterConstr d.num_arcs d.num_scenarios where
  ycoef := fun a => if a ∈ idcs then (d.arcs.get a).capacity else 0
  zcoef := fun s => if s = scen then demand else 0
  sense := .ge
  rhs := demand

/-- The valid inequalities added by the model builder: per scenario, the
total-demand rows on all arcs out of the origins and on all arcs into the
destinations, then one row per origin node and one per destination node
with the demand of the commodities at that node. -/
def visConstrs (d : ProblemData) : List (MasterConstr d.num_arcs d.num_scenarios) :=
  (List.finRange d.num_scenarios).flatMap fun scen =>
    [visCapacityConstr d scen ((origins d).flatMap (arcIndicesFrom d))
        (∑ k, demandOf d k scen),
      visCapacityConstr d scen ((destinations d).flatMap (arcIndicesTo d))
        (∑ k, demandOf d k scen)]
    ++ ((origins d).map fun node =>
        visCapacityConstr d scen (arcIndicesFrom d node)
          (∑ k, if (commodity d k).from_node = node then demandOf d k scen else 0))
    ++ ((destinations d).map fun node =>
        visCapacityConstr d scen (arcIndicesTo d node)
          (∑ k, if (commodity d k).to_node = node then demandOf d k scen else 0))

/-- The constraints of the master model as built for (data, alpha): the
chance constraint first, then the valid inequalities unless no_vis. -/
def createMasterConstrs (d : ProblemData) (alpha : ℚ) (no_vis : Bool) :
    List (MasterConstr d.num_arcs d.num_scenarios) :=
  scenariosConstr d.num_arcs d.num_scenarios alpha ::
    (if no_vis then [] else visConstrs d)

/-- The master constraint a cut turns into when added by add_cut:
gamma z[scen] + beta . y >= gamma. -/
def cutConstr {narcs nscen : ℕ} (cut : Cut narcs) : MasterConstr narcs nscen where
  ycoef := cut.beta
  zcoef := fun s => if s.val = cut.scen then cut.gamma else 0
  sense := .ge
  rhs := cut.gamma

/-- Embedding of MasterProblem.add_cut: the cut constraint is appended to
the model constraints; both the lazy and the direct variant only add. -/
def add_cut {narcs nscen : ℕ} (constrs : List (MasterConstr narcs nscen))
    (cut : Cut narcs) : List (MasterConstr narcs nscen) :=
  constrs ++ [cutConstr cut]

/-- Lemma: constraints are never removed by a sequence of add_cut calls. -/
theorem mem_foldl_add_cut {narcs nscen : ℕ}
    (c : MasterConstr narcs nscen) (cuts : List (Cut narcs)) :
    ∀ constrs : List (MasterConstr narcs nscen), c ∈ constrs →
      c ∈ cuts.foldl add_cut constrs := by
  induction cuts with
  | nil => exact fun _ h => h
  | cons cut cuts ih =>
    intro constrs h
    exact ih (add_cut constrs cut) (List.mem_append_left _ h)

/-- Claim C8: the master model built for (data, alpha) contains the chance
constraint sum(z) <= alpha * num_scenarios; the constraint survives any
sequence of add_cut calls, and every assignment satisfying all constraints
of the resulting model keeps the number of waived scenarios at most
alpha * num_scenarios. -/
theorem chance_constraint_invariant (d : ProblemData) (alpha : ℚ)
    (no_vis : Bool) (cuts : List (Cut d.num_arcs))
    (y : Vec d.num_arcs) (z : Vec d.num_scenarios)
    (hsat : ∀ c ∈ cuts.foldl add_cut (createMasterConstrs d alpha no_vis),
      MasterConstr.sat c y z) :
    scenariosConstr d.num_arcs d.num_scenarios alpha
        ∈ createMasterConstrs d alpha no_vis ∧
    scenariosConstr d.num_arcs d.num_scenarios alpha
        ∈ cuts.foldl add_cut (createMasterConstrs d alpha no_vis) ∧
    (∑ s, z s) ≤ alpha * d.num_scenarios := by
  have hmem : scenariosConstr d.num_arcs d.num_scenarios alpha
      ∈ createMasterConstrs d alpha no_vis :=
    List.mem_cons_self _ _
  have hmem' := mem_foldl_add_cut _ cuts _ hmem
  refine ⟨hmem, hmem', ?_⟩
  have h := hsat _ hmem'
  rw [MasterConstr.sat, scenariosConstr] at h
  simp only [Sense.sat, zero_mul, one_mul, Finset.sum_const_zero, zero_add] at h
  exact h

/-- Witness for claim C8: the empty network with two scenarios, alpha one
half, one added cut, and the all-waived-to-zero assignment. -/
theorem chance_constraint_invariant_witness :
    (∀ c ∈ ([⟨fun _ => 0, 0, 0⟩] : List (Cut (ProblemData.mk 0 [] [] [1/2, 1/2]).num_arcs)).foldl
        add_cut (createMasterConstrs (ProblemData.mk 0 [] [] [1/2, 1/2]) (1/2) true),
      MasterConstr.sat c (fun _ => 0) (fun _ => 0)) ∧
    (scenariosConstr (ProblemData.mk 0 [] [] [1/2, 1/2]).num_arcs
        (ProblemData.mk 0 [] [] [1/2, 1/2]).num_scenarios (1/2)
        ∈ createMasterConstrs (ProblemData.mk 0 [] [] [1/2, 1/2]) (1/2) true ∧
      scenariosConstr (ProblemData.mk 0 [] [] [1/2, 1/2]).num_arcs
          (ProblemData.mk 0 [] [] [1/2, 1/2]).num_scenarios (1/2)
          ∈ ([⟨fun _ => 0, 0, 0⟩] : List (Cut (ProblemData.mk 0 [] [] [1/2, 1/2]).num_arcs)).foldl
            add_cut (createMasterConstrs (ProblemData.mk 0 [] [] [1/2, 1/2]) (1/2) true) ∧
      (∑ s, (fun _ : Fin (ProblemData.mk 0 [] [] [1/2, 1/2]).num_scenarios => (0 : ℚ)) s)
        ≤ 1/2 * (ProblemData.mk 0 [] [] [1/2, 1/2]).num_scenarios) := by
  have hsat : ∀ c ∈ ([⟨fun _ => 0, 0, 0⟩] : List (Cut (ProblemData.mk 0 [] [] [1/2, 1/2]).num_arcs)).foldl
      add_cut (createMasterConstrs (ProblemData.mk 0 [] [] [1/2, 1/2]) (1/2) true),
      MasterConstr.sat c (fun _ => 0) (fun _ => 0) := by
    intro c hc
    rw [List.foldl_cons, List.foldl_nil, add_cut, createMasterConstrs] at hc
    simp only [ite_true, List.cons_append, List.nil_append,
      List.mem_cons, List.mem_singleton, List.not_mem_nil, or_false] at hc
    rcases hc with rfl | rfl
    · rw [MasterConstr.sat, scenariosConstr]
      simp [Sense.sat]
    · rw [MasterConstr.sat, cutConstr]
      simp [Sense.sat]
  exact ⟨hsat, chance_constraint_invariant (ProblemData.mk 0 [] [] [1/2, 1/2])
    (1/2) true [⟨fun _ => 0, 0, 0⟩] (fun _ => 0) (fun _ => 0) hsat⟩

/-- Truncation of a rational toward zero: the conversion numpy applies when
the callback casts the incumbent waiver values z to integers. -/
def ratTrunc (q : ℚ) : ℤ := if q < 0 then ⌈q⌉ else ⌊q⌋

/-- Outcome of updating and solving one scenario subproblem at the incumbent
y, as observed through the external solver: the scenario number, the
feasibility oracle outcome, and the cut the subproblem then produces. The
cut method the callback invokes resolves to the basic feasibility cut of
the subproblem; the subproblem class in the src package only defines
feasibility_cut, so the call as written cannot even be dispatched there. -/
structure SubEval (narcs : ℕ) where
  scenario : ℕ
  feasible : Bool
  cutVal : Cut narcs

/-- One lazy constraint added by the callback: a subproblem cut passed to
add_cut, or the combinatorial constraint for a scenario at the incumbent. -/
inductive CallbackAction (narcs : ℕ) where
  | lazyCut (c : Cut narcs)
  | lazyComb (indicator : Vec narcs) (scen : ℕ)

/-- Scenario loop of the incumbent callback in solve_decomposition: the
waiver values are cast to integers and scenarios whose entry equals 1 are
skipped; every other scenario is updated with y and solved (its SubEval
consumed); a feasible scenario adds nothing, an infeasible one adds its cut
and, when with_combinatorial_cut is set, the combinatorial lazy constraint.
The loop returns the evaluated scenarios and the added constraints, in
order. -/
def callbackLoop {narcs : ℕ} (withComb : Bool) (y : Vec narcs) :
    List (ℚ × SubEval narcs) → List ℕ × List (CallbackAction narcs)
  | [] => ([], [])
  | (zi, sub) :: rest =>
    let next := callbackLoop withComb y rest
    if ratTrunc zi = 1 then next
    else
      (sub.scenario :: next.1,
        (if sub.feasible then []
          else CallbackAction.lazyCut sub.cutVal ::
            if withComb then
              [CallbackAction.lazyComb (combIndicator y) sub.scenario]
            else []) ++ next.2)

/-- Example feasibility cut returned by the example subproblem. -/
def exFeasCut : Cut exData.num_arcs := ⟨fun _ => 0, 1, 0⟩

/-- The cutset inequality available on the example network at the example
incumbent: the single arc capacity must cover the demand of 10. -/
def exCutsetCut : Cut exData.num_arcs := ⟨cutsetBeta exData {exArc0}, 10, 0⟩

/-- Example subproblem evaluation: scenario 0 is infeasible and produces the
example feasibility cut. -/
def exSubEval : SubEval exData.num_arcs := ⟨0, false, exFeasCut⟩

/-- Claim C3 (code bug): on the example network at the incumbent that builds
the single arc, with scenario 0 infeasible and not waived, the callback adds
exactly the subproblem cut (and additionally the combinatorial constraint
when that flag is set), while the cutset inequality that exists for the
deficient commodity is never among the added constraints, under any flag the
code offers; moreover a scenario whose waiver value is 999999/1000000,
approximately 1 rather than approximately 0, is still evaluated, because the
cast to integers truncates it to 0. -/
theorem callback_no_cutset_inequality :
    callbackLoop false exY [((0 : ℚ), exSubEval)]
        = ([0], [CallbackAction.lazyCut exFeasCut]) ∧
    callbackLoop true exY [((0 : ℚ), exSubEval)]
        = ([0], [CallbackAction.lazyCut exFeasCut,
            CallbackAction.lazyComb (combIndicator exY) 0]) ∧
    cutset_inequalities exData 0 exFlows exMc = [exCutsetCut] ∧
    CallbackAction.lazyCut exCutsetCut
        ∉ (callbackLoop false exY [((0 : ℚ), exSubEval)]).2 ∧
    CallbackAction.lazyCut exCutsetCut
        ∉ (callbackLoop true exY [((0 : ℚ), exSubEval)]).2 ∧
    (callbackLoop false exY [((999999 / 1000000 : ℚ), exSubEval)]).1 = [0] := by
  have hgamma : exCutsetCut ≠ exFeasCut := by
    intro h
    have h10 := congrArg Cut.gamma h
    rw [show exCutsetCut.gamma = 10 from rfl,
      show exFeasCut.gamma = 1 from rfl] at h10
    norm_num at h10
  have h1 : callbackLoop false exY [((0 : ℚ), exSubEval)]
      = ([0], [CallbackAction.lazyCut exFeasCut]) := by rfl
  have h2 : callbackLoop true exY [((0 : ℚ), exSubEval)]
      = ([0], [CallbackAction.lazyCut exFeasCut,
          CallbackAction.lazyComb (combIndicator exY) 0]) := by rfl
  refine ⟨h1, h2, ?_, ?_, ?_, ?_⟩
  · have hout : originOutflow exData (extractFlows exData exFlows) exComm0 = 0 := by
      show (∑ a : Fin 1, if arcFrom exData a = (commodity exData exComm0).from_node
          then extractFlows exData exFlows a exComm0 else 0) = 0
      rw [Fin.sum_univ_one]
      rfl
    have hcond : ¬(demandOf exData exComm0 0
        ≤ originOutflow exData (extractFlows exData exFlows) exComm0) := by
      rw [hout, show demandOf exData exComm0 0 = 10 from rfl]
      norm_num
    rw [cutset_inequalities,
      show List.finRange exData.num_commodities = [exComm0] from rfl]
    simp only [List.filterMap_cons, List.filterMap_nil]
    rw [if_neg hcond]
    rfl
  · rw [h1]
    intro hmem
    have heq := List.mem_singleton.mp hmem
    injection heq with h
    exact hgamma h
  · rw [h2]
    intro hmem
    rcases List.mem_cons.mp hmem with heq | hmem'
    · injection heq with h
      exact hgamma h
    · have heq := List.mem_singleton.mp hmem'
      cases heq
  · have htr : ratTrunc (999999 / 1000000 : ℚ) = 0 := by
      rw [ratTrunc, if_neg (by norm_num : ¬(999999 / 1000000 : ℚ) < 0)]
      norm_num
    simp [callbackLoop, htr, exSubEval]

end CCNDP
